import Mathlib

/-!
Verification of the signed-request authentication and order-integrity
admission pipeline of the bakery storefront backend (`app_optimized.py`):
the `rate_limit` middleware, `validate_telegram_init_data`, the pydantic
models `OrderItem` / `OrderCreate`, and the `create_order` endpoint.

Python strings are modelled as Lean `String`, floats (timestamps, prices,
totals) as `ℚ`, Python dicts keyed by strings as insertion-ordered
association lists, and raised exceptions as the `.error` branch of
`Except`.  The SHA-256 HMAC primitives and the JSON user parser are
external collaborators and are abstracted as function-valued fields of a
context `Ctx`; every property proved below holds for an arbitrary such
context.
-/

namespace Bakery

/-- Python `s.split(sep)` for a one-character separator, on the character
list: `"".split(c) == ['']`, and separators produce empty groups. -/
def splitOnChar (sep : Char) : List Char → List (List Char)
  | [] => [[]]
  | c :: cs =>
    match splitOnChar sep cs with
    | [] => [[]]
    | g :: gs => if c = sep then [] :: g :: gs else (c :: g) :: gs

/-- The groups of `init_data.split('&')` (line 205). -/
def splitAmp (s : String) : List String :=
  (splitOnChar '&' s.data).map (fun l => String.mk l)

/-- Split a character list at the first `'='`; `none` when no `'='`
occurs.  Models the guard `'=' in param` plus `param.split('=', 1)`
(lines 206-207). -/
def splitAtFirstEq : List Char → Option (List Char × List Char)
  | [] => none
  | c :: cs =>
    if c = '=' then some ([], cs)
    else (splitAtFirstEq cs).map (fun p => (c :: p.1, p.2))

/-- `param.split('=', 1)` on strings, `none` when the field has no `'='`
(such a field is silently skipped by the parsing loop). -/
def splitKV (s : String) : Option (String × String) :=
  (splitAtFirstEq s.data).map (fun p => (String.mk p.1, String.mk p.2))

/-- Lookup in an insertion-ordered association list: the view of reading
a Python dict (`params.get(k)`). -/
def findVal {α : Type} (l : List (String × α)) (k : String) : Option α :=
  (l.find? (fun p => p.1 == k)).map (fun p => p.2)

/-- Python dict assignment `params[key] = value`: replace in place when
the key is present, otherwise append. -/
def upsert (l : List (String × String)) (k v : String) : List (String × String) :=
  if l.any (fun p => p.1 == k) then
    l.map (fun p => if p.1 = k then (k, v) else p)
  else l ++ [(k, v)]

/-- One iteration of the parsing loop of `validate_telegram_init_data`
(lines 205-208): a field with an `'='` is entered into the dict, one
without is skipped. -/
def parseStep (acc : List (String × String)) (f : String) : List (String × String) :=
  match splitKV f with
  | some (k, v) => upsert acc k v
  | none => acc

/-- The parsing loop of `validate_telegram_init_data` (lines 204-208). -/
def parseParams (fields : List String) : List (String × String) :=
  fields.foldl parseStep []

/-- `params.pop(k, ...)`'s effect on the dict: drop the key. -/
def removeKey {α : Type} (l : List (String × α)) (k : String) : List (String × α) :=
  l.filter (fun p => !(p.1 == k))

/-- The order in which Python's `sorted(params.items())` arranges the
`(key, value)` tuples: lexicographic, key first, value breaking ties. -/
def pairLe (a b : String × String) : Prop :=
  a.1 < b.1 ∨ (a.1 = b.1 ∧ a.2 ≤ b.2)

instance : DecidableRel pairLe := fun a b => by
  unfold pairLe; exact inferInstance

instance pairLe_total : IsTotal (String × String) pairLe := by
  constructor
  intro a b
  rcases lt_trichotomy a.1 b.1 with h | h | h
  · exact Or.inl (Or.inl h)
  · rcases le_total a.2 b.2 with h2 | h2
    · exact Or.inl (Or.inr ⟨h, h2⟩)
    · exact Or.inr (Or.inr ⟨h.symm, h2⟩)
  · exact Or.inr (Or.inl h)

instance pairLe_trans : IsTrans (String × String) pairLe := by
  constructor
  intro a b c hab hbc
  rcases hab with h1 | ⟨h1, h1'⟩
  · rcases hbc with h2 | ⟨h2, _⟩
    · exact Or.inl (h1.trans h2)
    · exact Or.inl (h2 ▸ h1)
  · rcases hbc with h2 | ⟨h2, h2'⟩
    · exact Or.inl (h1 ▸ h2)
    · exact Or.inr ⟨h1.trans h2, h1'.trans h2'⟩

instance pairLe_antisymm : IsAntisymm (String × String) pairLe := by
  constructor
  intro a b hab hba
  rcases hab with h1 | ⟨h1, h1'⟩
  · rcases hba with h2 | ⟨h2, _⟩
    · exact absurd (h1.trans h2) (lt_irrefl _)
    · exact absurd h1 (h2 ▸ lt_irrefl _)
  · rcases hba with h2 | ⟨_, h2'⟩
    · exact absurd h2 (h1 ▸ lt_irrefl _)
    · exact Prod.ext h1 (le_antisymm h1' h2')

/-- `sep.join(strs)`. -/
def strJoin (sep : String) : List String → String
  | [] => ""
  | [x] => x
  | x :: y :: rest => x ++ sep ++ strJoin sep (y :: rest)

/-- The `data_check_string` (lines 224-226): non-`hash` pairs sorted and
rendered `key=value`, joined by `'\n'` with no trailing newline. -/
def dataCheckString (params : List (String × String)) : String :=
  strJoin "\n" ((List.insertionSort pairLe params).map (fun p => p.1 ++ "=" ++ p.2))

/-- §4.1 Canonicalizer as lines 203-213 plus 224-226 realise it: parse
the fields, pop the reserved key `hash` (`if not received_hash` treats a
missing key and an empty value alike, both being falsy), and produce the
canonical string of the remaining pairs. -/
def canonicalize (fields : List String) : Option (String × String) :=
  let params := parseParams fields
  match findVal params "hash" with
  | none => none
  | some h =>
    if h = "" then none
    else some (h, dataCheckString (removeKey params "hash"))

/-- Canonicalization straight from the raw payload string. -/
def canonicalizeRaw (s : String) : Option (String × String) :=
  canonicalize (splitAmp s)

/-- Strip leading and trailing whitespace: Python `str.strip()`. -/
def pyStripChars (cs : List Char) : List Char :=
  ((cs.dropWhile Char.isWhitespace).reverse.dropWhile Char.isWhitespace).reverse

/-- Python `str.strip()` on strings. -/
def pyStrip (s : String) : String :=
  String.mk (pyStripChars s.data)

/-- Accumulate decimal digits; `none` as soon as a non-digit appears. -/
def digitsToNatAux : Nat → List Char → Option Nat
  | acc, [] => some acc
  | acc, c :: cs =>
    if c.isDigit then digitsToNatAux (acc * 10 + (c.toNat - 48)) cs else none

/-- A non-empty all-digit character list as a number. -/
def digitsToNat : List Char → Option Nat
  | [] => none
  | cs => digitsToNatAux 0 cs

/-- Python `int(s)` on the decimal strings that reach it here: optional
surrounding whitespace, optional sign, then decimal digits; anything
else raises `ValueError` (modelled as `.error`). -/
def pyInt (s : String) : Except String Int :=
  match pyStripChars s.data with
  | '+' :: rest =>
    match digitsToNat rest with
    | some n => .ok (Int.ofNat n)
    | none => .error "invalid literal for int"
  | '-' :: rest =>
    match digitsToNat rest with
    | some n => .ok (-(Int.ofNat n : Int))
    | none => .error "invalid literal for int"
  | cs =>
    match digitsToNat cs with
    | some n => .ok (Int.ofNat n)
    | none => .error "invalid literal for int"

/-- The pydantic `TelegramUser` model (lines 92-97). -/
structure TelegramUser where
  id : Int
  first_name : String
  last_name : Option String := none
  username : Option String := none
  language_code : Option String := none
  deriving DecidableEq, Repr

/-- The verifier's external collaborators, abstracted: `hmacDigest`
models `hmac.new(key, msg, sha256).digest()` (line 229-233), `hmacHex`
models `hmac.new(key, msg, sha256).hexdigest()` (lines 235-239), and
`parseUser` models `TelegramUser(**json.loads(s))` (lines 246-247),
whose failures raise (modelled as `.error`). -/
structure Ctx where
  hmacDigest : String → String → String
  hmacHex : String → String → String
  parseUser : String → Except String TelegramUser

/-- A trivially computable context for concrete test inputs: both HMACs
return fixed strings and user parsing fails (as it does on the default
`'\x7b\x7d'` payload in the real system). -/
def ctx0 : Ctx := ⟨fun _ _ => "k", fun _ _ => "h", fun _ => .error "user"⟩

/-- A fixed user record for concrete test inputs. -/
def user0 : TelegramUser := ⟨42, "A", none, none, none⟩

/-- A context whose user parsing always succeeds with `user0`. -/
def ctxUser : Ctx := ⟨fun _ _ => "k", fun _ _ => "h", fun _ => .ok user0⟩

/-- The dict that survives `params.pop('hash', None)`. -/
def paramsOf (fields : List String) : List (String × String) :=
  removeKey (parseParams fields) "hash"

/-- `int(params.get('auth_date', 0))` (line 217): the default is the
integer `0`, a present field's value goes through `int(...)`, which may
raise. -/
def authDateOf (fields : List String) : Except String Int :=
  match findVal (paramsOf fields) "auth_date" with
  | none => .ok 0
  | some s => pyInt s

/-- The body of `validate_telegram_init_data` (the code inside `try`,
lines 203-247): `.error` marks an exception raised by `int(...)` or by
user parsing; `.ok none` is an explicit `return None` rejection. -/
def validateFieldsBody (ctx : Ctx) (fields : List String) (bot_token : String)
    (now : Int) : Except String (Option TelegramUser) :=
  match canonicalize fields with
  | none => .ok none
  | some (h, dcs) =>
    match authDateOf fields with
    | .error e => .error e
    | .ok auth_date =>
      if now - auth_date > 86400 then .ok none
      else
        let secret_key := ctx.hmacDigest "WebAppData" bot_token
        let calculated_hash := ctx.hmacHex secret_key dcs
        if calculated_hash ≠ h then .ok none
        else
          match ctx.parseUser ((findVal (paramsOf fields) "user").getD "\x7b\x7d") with
          | .error e => .error e
          | .ok u => .ok (some u)

/-- `validate_telegram_init_data` over the already-split fields: the
`try/except Exception` wrapper (lines 202, 249-251) turns every raised
exception into the `None` rejection. -/
def validateFields (ctx : Ctx) (fields : List String) (bot_token : String)
    (now : Int) : Option TelegramUser :=
  match validateFieldsBody ctx fields bot_token now with
  | .ok r => r
  | .error _ => none

/-- `validate_telegram_init_data` (lines 196-251), from the raw
`init_data` string. -/
def validate_telegram_init_data (ctx : Ctx) (init_data bot_token : String)
    (now : Int) : Option TelegramUser :=
  validateFields ctx (splitAmp init_data) bot_token now

/-! ### Rate Admission Gate: the `rate_limit` middleware (lines 169-194) -/

/-- One entry of the `request_counts` dict. -/
structure Counter where
  count : Nat
  reset_time : ℚ
  deriving DecidableEq, Repr

/-- The process-wide `request_counts` dict, keyed by client IP. -/
abbrev RequestCounts := List (String × Counter)

/-- The cleanup sweep at the top of the middleware (lines 179-181): drop
every entry whose reset time lies more than 60 seconds in the past. -/
def sweep (st : RequestCounts) (now : ℚ) : RequestCounts :=
  st.filter (fun p => !(decide (now - p.2.reset_time > 60)))

/-- In-place update of one key's counter, the effect of
`request_counts[client_ip]["count"] += 1`. -/
def updateVal (st : RequestCounts) (k : String) (c : Counter) : RequestCounts :=
  st.map (fun p => if p.1 == k then (k, c) else p)

/-- The `rate_limit` middleware's decision for one request (lines
172-194): the new `request_counts` state, and `true` when the request is
admitted to `call_next` (`false` is the 429 response). -/
def rate_limit (st : RequestCounts) (client_ip : String) (now : ℚ) :
    RequestCounts × Bool :=
  let st1 := sweep st now
  match findVal st1 client_ip with
  | some c =>
    if c.count ≥ 30 then (st1, false)
    else (updateVal st1 client_ip ⟨c.count + 1, c.reset_time⟩, true)
  | none => (st1 ++ [(client_ip, ⟨1, now + 60⟩)], true)

/-- Iterate the middleware for a fixed identity over a list of request
times, collecting the admission decisions. -/
def runRequests (st : RequestCounts) (ip : String) : List ℚ → RequestCounts × List Bool
  | [] => (st, [])
  | t :: ts =>
    let r := rate_limit st ip t
    let rest := runRequests r.1 ip ts
    (rest.1, r.2 :: rest.2)

/-! ### Order Validator: the pydantic models and `create_order` -/

/-- The pydantic `OrderItem` model's fields (lines 54-58); `price` is a
float, modelled as `ℚ`. -/
structure OrderItem where
  id : Int
  name : String
  qty : Int
  price : ℚ
  deriving DecidableEq, Repr

/-- Python `round(v, 2)` (line 64). -/
def round2 (q : ℚ) : ℚ := ((round (q * 100) : ℤ) : ℚ) / 100

/-- The checks a single `OrderItem` undergoes: `qty` bounds from
`Field(ge=1, le=100)` (line 57), `price` nonnegativity from
`Field(ge=0)` (line 58), and `validate_price` (lines 60-64), which also
rounds the price to 2 decimals. -/
def validateItem (it : OrderItem) : Except String OrderItem :=
  if ¬ (1 ≤ it.qty ∧ it.qty ≤ 100) then .error "qty out of range"
  else if it.price < 0 then .error "price must be nonnegative"
  else if it.price < 0 ∨ it.price > 1000 then .error "Invalid price range"
  else .ok { it with price := round2 it.price }

/-- Element-wise validation of the `items` list; pydantic fails model
construction when any item fails. -/
def validateItems : List OrderItem → Except String (List OrderItem)
  | [] => .ok []
  | it :: rest =>
    match validateItem it, validateItems rest with
    | .ok v, .ok vs => .ok (v :: vs)
    | .error e, _ => .error e
    | .ok _, .error e => .error e

/-- An order submission before any validation: the JSON body of
`POST /api/order`. -/
structure RawOrder where
  items : List OrderItem
  total : ℚ
  init_data : String
  notes : Option String
  deriving DecidableEq, Repr

/-- A constructed (validated) `OrderCreate` model (lines 66-84). -/
structure OrderCreate where
  items : List OrderItem
  total : ℚ
  init_data : String
  notes : Option String
  deriving DecidableEq, Repr

/-- The `notes` handling of `OrderCreate` (line 70 and lines 80-84):
`Field(None, max_length=500)` and `validate_notes` both reject a string
longer than 500 characters before any trimming; an accepted truthy note
is returned stripped, a falsy one (absent or empty) as `None`. -/
def validate_notes (v : Option String) : Except String (Option String) :=
  match v with
  | none => .ok none
  | some s =>
    if s ≠ "" ∧ s.length > 500 then .error "Notes too long (max 500 chars)"
    else .ok (if s = "" then none else some (pyStrip s))

/-- Pydantic construction of the `OrderCreate` body: each item's
validators, the `items` validator (lines 72-78: non-empty, at most 50),
the `total` field bounds (line 68), and the `notes` validator. -/
def mkOrderCreate (raw : RawOrder) : Except String OrderCreate :=
  match validateItems raw.items with
  | .error e => .error e
  | .ok vitems =>
    if vitems.length = 0 then .error "Order must contain at least one item"
    else if vitems.length > 50 then .error "Too many items in order"
    else if ¬ (0 ≤ raw.total ∧ raw.total ≤ 10000) then .error "total out of range"
    else
      match validate_notes raw.notes with
      | .error e => .error e
      | .ok n => .ok ⟨vitems, raw.total, raw.init_data, n⟩

/-- `sum(item.price * item.qty for item in order.items)` (line 309),
over the validated (price-rounded) items. -/
def calculated_total (items : List OrderItem) : ℚ :=
  (items.map (fun it => it.price * (it.qty : ℚ))).sum

/-- The decision a request ends in, as the surrounding HTTP layer
distinguishes them: 429, 401, 400/422 with a detail, or success. -/
inductive Outcome where
  | rateLimited
  | unauthorized
  | badRequest (detail : String)
  | accepted (user : TelegramUser) (total : ℚ)
  deriving DecidableEq, Repr

/-- The `create_order` endpoint's own checks (lines 289-320), run on an
already-constructed `OrderCreate` body: Telegram initData verification
first, then the declared-total cross-check with tolerance `0.01`. -/
def create_order (ctx : Ctx) (o : OrderCreate) (bot_token : String) (now : Int) :
    Outcome :=
  match validateFields ctx (splitAmp o.init_data) bot_token now with
  | none => .unauthorized
  | some user =>
    if |calculated_total o.items - o.total| > 1 / 100 then
      .badRequest "Total amount mismatch"
    else .accepted user o.total

/-- One request through the deployed stack: the `rate_limit` middleware
first (middleware wraps routing), then FastAPI's body parsing into
`OrderCreate` (pydantic validation, a 422 on failure), then the
`create_order` endpoint body.  The clock is sampled once: the middleware
sees the float timestamp, the endpoint its integer truncation. -/
def handleRequest (ctx : Ctx) (st : RequestCounts) (client_ip : String)
    (raw : RawOrder) (bot_token : String) (now : ℚ) : RequestCounts × Outcome :=
  match rate_limit st client_ip now with
  | (st1, false) => (st1, .rateLimited)
  | (st1, true) =>
    match mkOrderCreate raw with
    | .error e => (st1, .badRequest e)
    | .ok o => (st1, create_order ctx o bot_token (Rat.floor now))

/-- The full order-validation path for a submission, signature aside:
pydantic model construction followed by `create_order`'s total
cross-check. -/
def validateOrder (raw : RawOrder) : Except String OrderCreate :=
  match mkOrderCreate raw with
  | .error e => .error e
  | .ok o =>
    if |calculated_total o.items - o.total| > 1 / 100 then
      .error "Total amount mismatch"
    else .ok o

/-! ### Association-list lemmas for the parsed payload dict -/

theorem findVal_cons {α : Type} (p : String × α) (l : List (String × α)) (k : String) :
    findVal (p :: l) k = if p.1 = k then some p.2 else findVal l k := by
  by_cases h : p.1 = k
  · rw [if_pos h]
    have hb : (p.1 == k) = true := by simpa using h
    simp [findVal, List.find?_cons_of_pos, hb]
  · rw [if_neg h]
    have hb : ¬ ((p.1 == k) = true) := by simpa using h
    simp only [Bool.not_eq_true] at hb
    simp [findVal, List.find?_cons_of_neg, hb]

theorem findVal_append {α : Type} (l1 l2 : List (String × α)) (k : String) :
    findVal (l1 ++ l2) k =
      match findVal l1 k with
      | some v => some v
      | none => findVal l2 k := by
  induction l1 with
  | nil => simp [findVal]
  | cons p ps ih =>
    by_cases hp : p.1 = k
    · simp [findVal_cons, hp]
    · simp [findVal_cons, hp, ih]

theorem upsert_of_not_mem (l : List (String × String)) (k v : String)
    (h : (l.any (fun q => q.1 == k)) = false) : upsert l k v = l ++ [(k, v)] := by
  simp [upsert, h]

theorem findVal_eq_none_of_any_false (l : List (String × String)) (k : String)
    (h : (l.any (fun q => q.1 == k)) = false) : findVal l k = none := by
  induction l with
  | nil => rfl
  | cons p ps ih =>
    simp only [List.any_cons, Bool.or_eq_false_iff] at h
    have h1 : ¬ p.1 = k := by simpa using h.1
    simp [findVal_cons, h1, ih h.2]

theorem findVal_replace (l : List (String × String)) (k' v' k : String) (h : ¬ k = k') :
    findVal (l.map (fun p => if p.1 = k' then (k', v') else p)) k = findVal l k := by
  induction l with
  | nil => rfl
  | cons q qs ih =>
    by_cases hq : q.1 = k'
    · simp [List.map_cons, hq, findVal_cons, Ne.symm h, ih]
    · simp [List.map_cons, hq, findVal_cons, ih]

theorem findVal_replace_self (l : List (String × String)) (k' v' : String)
    (h : (l.any (fun q => q.1 == k')) = true) :
    findVal (l.map (fun p => if p.1 = k' then (k', v') else p)) k' = some v' := by
  induction l with
  | nil => simp at h
  | cons q qs ih =>
    by_cases hq : q.1 = k'
    · simp [List.map_cons, hq, findVal_cons]
    · have h2 : (qs.any (fun q => q.1 == k')) = true := by
        simp only [List.any_cons, Bool.or_eq_true] at h
        rcases h with h | h
        · exact absurd (by simpa using h) hq
        · exact h
      simp [List.map_cons, hq, findVal_cons, ih h2]

theorem findVal_upsert (l : List (String × String)) (k' v' k : String) :
    findVal (upsert l k' v') k = if k = k' then some v' else findVal l k := by
  by_cases hany : (l.any (fun q => q.1 == k')) = true
  · unfold upsert
    rw [if_pos hany]
    by_cases hk : k = k'
    · subst hk
      simp [findVal_replace_self l k v' hany]
    · rw [findVal_replace l k' v' k hk, if_neg hk]
  · have hanyf : (l.any (fun q => q.1 == k')) = false := Bool.eq_false_iff.mpr hany
    unfold upsert
    rw [if_neg (by simp [hanyf]), findVal_append]
    by_cases hk : k = k'
    · subst hk
      rw [findVal_eq_none_of_any_false l k hanyf]
      simp [findVal_cons, findVal]
    · cases hfv : findVal l k with
      | some v => simp [hfv, hk]
      | none => simp [hfv, findVal_cons, Ne.symm hk, findVal, hk]

/-- Modelled from the spec: "duplicate keys — last occurrence wins when
parsing into the mapping".  The value bound to `k` is the one of the
last field that parses with key `k`. -/
def lastWins (fields : List String) (k : String) : Option String :=
  match fields with
  | [] => none
  | f :: fs =>
    match lastWins fs k with
    | some v => some v
    | none =>
      match splitKV f with
      | some (k', v') => if k' = k then some v' else none
      | none => none

theorem parseParams_foldl (fields : List String) (acc : List (String × String)) (k : String) :
    findVal (fields.foldl parseStep acc) k =
      match lastWins fields k with
      | some v => some v
      | none => findVal acc k := by
  induction fields generalizing acc with
  | nil => simp [lastWins]
  | cons f fs ih =>
    rw [List.foldl_cons, ih]
    cases hl : lastWins fs k with
    | some v => simp [lastWins, hl]
    | none =>
      cases hs : splitKV f with
      | none => simp [lastWins, hl, hs, parseStep]
      | some kv =>
        obtain ⟨k', v'⟩ := kv
        rw [show parseStep acc f = upsert acc k' v' by simp [parseStep, hs]]
        rw [findVal_upsert]
        by_cases hk : k' = k
        · subst hk
          simp [lastWins, hl, hs]
        · rw [if_neg (Ne.symm hk)]
          simp [lastWins, hl, hs, hk]

/-- C7: when the raw signed-payload string contains the same key more
than once, parsing keeps the last occurrence's value: looking any key up
in the parsed mapping yields the value of the last field carrying that
key, so verification is computed over the mapping binding each
duplicated key to its final value. -/
theorem C7_last_occurrence_wins (fields : List String) (k : String) :
    findVal (parseParams fields) k = lastWins fields k := by
  have h := parseParams_foldl fields [] k
  unfold parseParams
  rw [h]
  cases hl : lastWins fields k <;> simp [findVal]

/-- C6 counterexample: the raw payload `"a=1&noequals&hash=h"` contains
the field `"noequals"` without any `'='`, so by the claim its
canonicalization must fail with `MalformedPayload`; the code instead
skips that field and canonicalizes successfully to the signature `"h"`
and canonical string `"a=1"`. -/
theorem C6_counterexample :
    splitAmp "a=1&noequals&hash=h" = ["a=1", "noequals", "hash=h"] ∧
    splitKV "noequals" = none ∧
    canonicalizeRaw "a=1&noequals&hash=h" = some ("h", "a=1") :=
  ⟨rfl, rfl, rfl⟩

/-- C6 (amended): canonicalization of a raw signed-payload string fails
exactly when the parsed mapping's signature entry (reserved key `hash`)
is absent or has the empty string as value — fields lacking an `'='` are
skipped rather than fatal, and the empty payload fails only because it
yields no `hash` entry; otherwise it returns the signature value and the
sorted, newline-joined canonical string of the remaining pairs. -/
theorem C6_amended_fails_iff_hash_falsy :
    (∀ s : String, canonicalizeRaw s = none ↔
      ((findVal (parseParams (splitAmp s)) "hash").getD "") = "") ∧
    canonicalizeRaw "" = none := by
  constructor
  · intro s
    unfold canonicalizeRaw canonicalize
    cases hfv : findVal (parseParams (splitAmp s)) "hash" with
    | none => simp [hfv]
    | some h =>
      by_cases hh : h = ""
      · simp [hfv, hh]
      · simp [hfv, hh]
  · rfl

/-- C9: the `try/except Exception` wrapper of the verifier catches every
exception raised inside the body — `int(...)` on a non-numeric
`auth_date`, `json.loads`/model construction on a missing or unparsable
`user` field — and converts it into the named rejection result `None`;
no unclassified exception reaches the caller. -/
theorem C9_exceptions_caught (ctx : Ctx) (fields : List String) (bot_token : String)
    (now : Int) (e : String)
    (hb : validateFieldsBody ctx fields bot_token now = .error e) :
    validateFields ctx fields bot_token now = none := by
  unfold validateFields
  rw [hb]

/-- C9 witness: a payload whose `auth_date` is the non-numeric string
`"abc"` makes the body raise `ValueError`, and the verifier boundary
turns that into the `None` rejection. -/
theorem C9_witness :
    validateFieldsBody ctx0 ["hash=h", "auth_date=abc"] "t" 0 =
      .error "invalid literal for int" ∧
    validateFields ctx0 ["hash=h", "auth_date=abc"] "t" 0 = none :=
  ⟨rfl, C9_exceptions_caught ctx0 ["hash=h", "auth_date=abc"] "t" 0
    "invalid literal for int" rfl⟩

/-- C5: a payload whose `auth_date` lies more than 86400 seconds before
the current time is rejected with the `None` result even when the
supplied signature equals the HMAC recomputed over the canonical string:
the freshness check precedes the hash comparison, so the match is never
consulted. -/
theorem C5_expired_rejected (ctx : Ctx) (fields : List String) (bot_token : String)
    (now : Int) (h dcs : String) (ad : Int)
    (hc : canonicalize fields = some (h, dcs))
    (hsig : ctx.hmacHex (ctx.hmacDigest "WebAppData" bot_token) dcs = h)
    (had : authDateOf fields = .ok ad)
    (hexp : now - ad > 86400) :
    validateFields ctx fields bot_token now = none := by
  simp [validateFields, validateFieldsBody, hc, had, hexp]

/-- C5 witness: with the supplied signature `"h"` equal to the one the
context recomputes, an `auth_date` of 0 at time 86401 is still
rejected. -/
theorem C5_witness :
    validateFields ctx0 ["hash=h", "auth_date=0"] "t" 86401 = none := by
  refine C5_expired_rejected ctx0 ["hash=h", "auth_date=0"] "t" 86401
    "h" "auth_date=0" 0 ?_ ?_ ?_ ?_
  · rfl
  · rfl
  · rfl
  · decide

/-- The implicit invariant of C10 on the rate-limit state: every stored
counter's count lies in `[1, 30]`. -/
def counterInv (st : RequestCounts) : Prop :=
  ∀ e ∈ st, 1 ≤ e.2.count ∧ e.2.count ≤ 30

theorem counterInv_sweep (st : RequestCounts) (now : ℚ) (h : counterInv st) :
    counterInv (sweep st now) := by
  intro e he
  exact h e (List.mem_of_mem_filter he)

/-- C10: every counter stored in `request_counts` has a count between 1
and 30 inclusive, and every request-processing step — the `rate_limit`
middleware alone, or a full request through the stack — preserves this:
a counter is created with count 1 and incremented only when its count is
strictly below 30. -/
theorem C10_counter_invariant (st : RequestCounts) (client_ip : String) (now : ℚ)
    (h : counterInv st) :
    counterInv (rate_limit st client_ip now).1 ∧
    ∀ (ctx : Ctx) (raw : RawOrder) (bot_token : String),
      counterInv (handleRequest ctx st client_ip raw bot_token now).1 := by
  have hs := counterInv_sweep st now h
  have hrl : counterInv (rate_limit st client_ip now).1 := by
    unfold rate_limit
    cases hfv : findVal (sweep st now) client_ip with
    | none =>
      simp only [hfv]
      intro e he
      rcases List.mem_append.mp he with he | he
      · exact hs e he
      · simp only [List.mem_singleton] at he
        subst he
        exact ⟨le_refl 1, by norm_num⟩
    | some c =>
      by_cases hc : c.count ≥ 30
      · simp only [hfv, if_pos hc]
        exact hs
      · simp only [hfv, if_neg hc]
        intro e he
        unfold updateVal at he
        rcases List.mem_map.mp he with ⟨p, hp, hpe⟩
        by_cases hpk : (p.1 == client_ip) = true
        · rw [if_pos hpk] at hpe
          subst hpe
          refine ⟨Nat.le_add_left 1 c.count, ?_⟩
          show c.count + 1 ≤ 30
          omega
        · rw [if_neg hpk] at hpe
          subst hpe
          exact hs p hp
  refine ⟨hrl, ?_⟩
  intro ctx raw bot_token
  have h1 := hrl
  unfold handleRequest
  rcases hre : rate_limit st client_ip now with ⟨st1, b⟩
  rw [hre] at h1
  cases b
  · simpa using h1
  · cases hmk : mkOrderCreate raw with
    | error e => simpa [hmk] using h1
    | ok o => simpa [hmk] using h1

/-- C10 witness: a state holding a full counter satisfies the invariant,
and the step at a rejected request preserves it. -/
theorem C10_witness : counterInv (rate_limit [("a", ⟨30, 60⟩)] "a" 0).1 :=
  (C10_counter_invariant [("a", ⟨30, 60⟩)] "a" 0
    (by
      intro e he
      simp only [List.mem_singleton] at he
      subst he
      exact ⟨by norm_num, by norm_num⟩)).1

/-! ### C4: order-independence of canonicalization and verification -/

theorem mem_key_unique {α : Type} (l : List (String × α))
    (hnd : (l.map Prod.fst).Nodup) (p q : String × α)
    (hp : p ∈ l) (hq : q ∈ l) (hk : p.1 = q.1) : p = q := by
  induction l with
  | nil => cases hp
  | cons x xs ih =>
    simp only [List.map_cons, List.nodup_cons] at hnd
    rcases List.mem_cons.mp hp with hp1 | hp1 <;> rcases List.mem_cons.mp hq with hq1 | hq1
    · rw [hp1, hq1]
    · exfalso
      apply hnd.1
      have hm : q.1 ∈ xs.map Prod.fst := List.mem_map_of_mem Prod.fst hq1
      rwa [← hk, hp1] at hm
    · exfalso
      apply hnd.1
      have hm : p.1 ∈ xs.map Prod.fst := List.mem_map_of_mem Prod.fst hp1
      rwa [hk, hq1] at hm
    · exact ih hnd.2 hp1 hq1

theorem findVal_perm {α : Type} (l1 l2 : List (String × α)) (hperm : l1.Perm l2)
    (hnd : (l1.map Prod.fst).Nodup) (k : String) : findVal l1 k = findVal l2 k := by
  cases h1 : findVal l1 k with
  | some v =>
    obtain ⟨p, hfind⟩ : ∃ p, l1.find? (fun q => q.1 == k) = some p := by
      unfold findVal at h1
      cases hf : l1.find? (fun q => q.1 == k) with
      | none => rw [hf] at h1; cases h1
      | some p => exact ⟨p, rfl⟩
    have hp_mem : p ∈ l1 := List.mem_of_find?_eq_some hfind
    have hp_key : (p.1 == k) = true := by simpa using List.find?_some hfind
    have hv : p.2 = v := by
      unfold findVal at h1
      rw [hfind] at h1
      simpa using h1
    cases h2 : l2.find? (fun q => q.1 == k) with
    | none =>
      exact absurd hp_key (List.find?_eq_none.mp h2 p (hperm.mem_iff.mp hp_mem))
    | some q =>
      have hq_mem : q ∈ l2 := List.mem_of_find?_eq_some h2
      have hq_key : (q.1 == k) = true := by simpa using List.find?_some h2
      have hpq : p = q := by
        refine mem_key_unique l1 hnd p q hp_mem (hperm.mem_iff.mpr hq_mem) ?_
        rw [beq_iff_eq] at hp_key hq_key
        rw [hp_key, hq_key]
      unfold findVal
      rw [h2, ← hpq]
      simp [hv]
  | none =>
    cases h2 : findVal l2 k with
    | none => rfl
    | some v =>
      exfalso
      obtain ⟨q, hfind⟩ : ∃ q, l2.find? (fun x => x.1 == k) = some q := by
        unfold findVal at h2
        cases hf : l2.find? (fun x => x.1 == k) with
        | none => rw [hf] at h2; cases h2
        | some q => exact ⟨q, rfl⟩
      have hq_mem : q ∈ l1 := hperm.mem_iff.mpr (List.mem_of_find?_eq_some hfind)
      have hq_key : (q.1 == k) = true := by simpa using List.find?_some hfind
      unfold findVal at h1
      cases hf1 : l1.find? (fun x => x.1 == k) with
      | some p => rw [hf1] at h1; cases h1
      | none => exact absurd hq_key (List.find?_eq_none.mp hf1 q hq_mem)

theorem parseParams_acc_eq (fields : List String) (acc : List (String × String))
    (hnd : ((acc.map Prod.fst) ++ ((fields.filterMap splitKV).map Prod.fst)).Nodup) :
    fields.foldl parseStep acc = acc ++ fields.filterMap splitKV := by
  induction fields generalizing acc with
  | nil => simp
  | cons f fs ih =>
    cases hs : splitKV f with
    | none =>
      have hfm : (f :: fs).filterMap splitKV = fs.filterMap splitKV := by
        simp [List.filterMap_cons, hs]
      rw [hfm] at hnd ⊢
      rw [List.foldl_cons, show parseStep acc f = acc by simp [parseStep, hs]]
      exact ih acc hnd
    | some kv =>
      obtain ⟨k, v⟩ := kv
      have hfm : (f :: fs).filterMap splitKV = (k, v) :: fs.filterMap splitKV := by
        simp [List.filterMap_cons, hs]
      rw [hfm] at hnd ⊢
      have hkacc : (acc.any (fun q => q.1 == k)) = false := by
        rw [List.nodup_append] at hnd
        rw [List.any_eq_false]
        intro q hq hbeq
        have hk1 : q.1 = k := by simpa using hbeq
        exact hnd.2.2 (hk1 ▸ List.mem_map_of_mem Prod.fst hq) (by simp)
      rw [List.foldl_cons, show parseStep acc f = upsert acc k v by simp [parseStep, hs],
        upsert_of_not_mem acc k v hkacc]
      have hnd' : (((acc ++ [(k, v)]).map Prod.fst) ++
          ((fs.filterMap splitKV).map Prod.fst)).Nodup := by
        simpa [List.map_append, List.append_assoc] using hnd
      rw [ih (acc ++ [(k, v)]) hnd', List.append_assoc]
      simp

theorem nodup_keys_filter (l : List (String × String)) (f : String × String → Bool)
    (hnd : (l.map Prod.fst).Nodup) : ((l.filter f).map Prod.fst).Nodup :=
  hnd.sublist ((List.filter_sublist l).map Prod.fst)

theorem dataCheckString_perm (l1 l2 : List (String × String)) (h : l1.Perm l2) :
    dataCheckString l1 = dataCheckString l2 := by
  unfold dataCheckString
  have hsort : List.insertionSort pairLe l1 = List.insertionSort pairLe l2 :=
    List.eq_of_perm_of_sorted
      (((List.perm_insertionSort pairLe l1).trans h).trans
        (List.perm_insertionSort pairLe l2).symm)
      (List.sorted_insertionSort pairLe l1) (List.sorted_insertionSort pairLe l2)
  rw [hsort]

/-- C4: for a valid field mapping (each key occurring once), reordering
the `&`-separated fields of the raw signed-payload string before
canonicalization yields an identical canonical string, and the whole
verification — which also reads `auth_date` and `user` from the parsed
mapping and recomputes the HMAC over the canonical string — yields an
identical outcome. -/
theorem C4_order_independence (ctx : Ctx) (bot_token : String) (now : Int)
    (f1 f2 : List String) (hperm : f1.Perm f2)
    (hnd : ((f1.filterMap splitKV).map Prod.fst).Nodup) :
    canonicalize f1 = canonicalize f2 ∧
    validateFields ctx f1 bot_token now = validateFields ctx f2 bot_token now := by
  have hp1 : parseParams f1 = f1.filterMap splitKV :=
    parseParams_acc_eq f1 [] (by simpa using hnd)
  have hfmperm : (f1.filterMap splitKV).Perm (f2.filterMap splitKV) :=
    hperm.filterMap splitKV
  have hnd2 : ((f2.filterMap splitKV).map Prod.fst).Nodup :=
    ((hfmperm.map Prod.fst).nodup_iff).mp hnd
  have hp2 : parseParams f2 = f2.filterMap splitKV :=
    parseParams_acc_eq f2 [] (by simpa using hnd2)
  have hpp : (parseParams f1).Perm (parseParams f2) := by
    rw [hp1, hp2]; exact hfmperm
  have hppnd : ((parseParams f1).map Prod.fst).Nodup := by
    rw [hp1]; exact hnd
  have hfv : ∀ k, findVal (parseParams f1) k = findVal (parseParams f2) k :=
    fun k => findVal_perm _ _ hpp hppnd k
  have hrm : (removeKey (parseParams f1) "hash").Perm
      (removeKey (parseParams f2) "hash") := hpp.filter _
  have hrmnd : ((removeKey (parseParams f1) "hash").map Prod.fst).Nodup :=
    nodup_keys_filter _ _ hppnd
  have hfvrm : ∀ k, findVal (paramsOf f1) k = findVal (paramsOf f2) k := by
    intro k
    unfold paramsOf
    exact findVal_perm _ _ hrm hrmnd k
  have hdcs : dataCheckString (removeKey (parseParams f1) "hash") =
      dataCheckString (removeKey (parseParams f2) "hash") :=
    dataCheckString_perm _ _ hrm
  have hcan : canonicalize f1 = canonicalize f2 := by
    simp only [canonicalize]
    rw [hfv "hash", hdcs]
  have hauth : authDateOf f1 = authDateOf f2 := by
    unfold authDateOf
    rw [hfvrm "auth_date"]
  refine ⟨hcan, ?_⟩
  unfold validateFields validateFieldsBody
  simp only [hcan, hauth, hfvrm "user"]

/-- C4 witness: a concrete reordering of a three-field payload with
distinct keys canonicalizes and verifies identically. -/
theorem C4_witness :
    canonicalize ["hash=h", "b=2", "a=1"] = canonicalize ["a=1", "b=2", "hash=h"] ∧
    validateFields ctx0 ["hash=h", "b=2", "a=1"] "t" 0 =
      validateFields ctx0 ["a=1", "b=2", "hash=h"] "t" 0 :=
  C4_order_independence ctx0 "t" 0 ["hash=h", "b=2", "a=1"] ["a=1", "b=2", "hash=h"]
    (by decide) (by decide)

/-! ### C2: rate-limit window behaviour -/

theorem runRequests_nil (st : RequestCounts) (ip : String) :
    runRequests st ip [] = (st, []) := rfl

theorem runRequests_cons (st : RequestCounts) (ip : String) (t : ℚ) (ts : List ℚ) :
    runRequests st ip (t :: ts) =
      ((runRequests (rate_limit st ip t).1 ip ts).1,
       (rate_limit st ip t).2 :: (runRequests (rate_limit st ip t).1 ip ts).2) := rfl

theorem runRequests_append (st : RequestCounts) (ip : String) (l1 l2 : List ℚ) :
    runRequests st ip (l1 ++ l2) =
      ((runRequests (runRequests st ip l1).1 ip l2).1,
       (runRequests st ip l1).2 ++ (runRequests (runRequests st ip l1).1 ip l2).2) := by
  induction l1 generalizing st with
  | nil => simp [runRequests_nil]
  | cons t ts ih => simp [runRequests_cons, ih]

theorem sweep_singleton_keep (ip : String) (c : Counter) (t : ℚ)
    (h : t - c.reset_time ≤ 60) : sweep [(ip, c)] t = [(ip, c)] := by
  have hn : ¬ (t - c.reset_time > 60) := not_lt.mpr h
  simp [sweep, hn]

theorem rate_limit_fresh (ip : String) (t : ℚ) :
    rate_limit [] ip t = ([(ip, ⟨1, t + 60⟩)], true) := by
  unfold rate_limit
  simp [sweep, findVal]

theorem rate_limit_found_increment (ip : String) (k : Nat) (reset t : ℚ)
    (hin : t - reset ≤ 60) (hk : k < 30) :
    rate_limit [(ip, ⟨k, reset⟩)] ip t = ([(ip, ⟨k + 1, reset⟩)], true) := by
  have hn : ¬ (t - reset > 60) := not_lt.mpr hin
  have hge : ¬ (k ≥ 30) := by omega
  simp [rate_limit, sweep, findVal_cons, updateVal, hn, hge]

theorem rate_limit_found_reject (ip : String) (k : Nat) (reset t : ℚ)
    (hin : t - reset ≤ 60) (hk : k ≥ 30) :
    rate_limit [(ip, ⟨k, reset⟩)] ip t = ([(ip, ⟨k, reset⟩)], false) := by
  have hn : ¬ (t - reset > 60) := not_lt.mpr hin
  simp [rate_limit, sweep, findVal_cons, hn, hk]

theorem rate_limit_evict (ip : String) (c : Counter) (t : ℚ)
    (h : t - c.reset_time > 60) :
    rate_limit [(ip, c)] ip t = ([(ip, ⟨1, t + 60⟩)], true) := by
  simp [rate_limit, sweep, findVal, h]

theorem runRequests_window (ip : String) (reset : ℚ) (k : Nat) (ts : List ℚ)
    (hts : ∀ t ∈ ts, t ≤ reset) (hk : k + ts.length ≤ 30) :
    runRequests [(ip, ⟨k, reset⟩)] ip ts =
      ([(ip, ⟨k + ts.length, reset⟩)], List.replicate ts.length true) := by
  induction ts generalizing k with
  | nil => simp [runRequests_nil]
  | cons t ts ih =>
    have h1 : t - reset ≤ 60 := by
      have := hts t (List.mem_cons_self t ts)
      linarith
    have hklt : k < 30 := by
      simp only [List.length_cons] at hk
      omega
    rw [runRequests_cons, rate_limit_found_increment ip k reset t h1 hklt]
    have hts' : ∀ x ∈ ts, x ≤ reset := fun x hx => hts x (List.mem_cons_of_mem t hx)
    have hk' : (k + 1) + ts.length ≤ 30 := by
      simp only [List.length_cons] at hk
      omega
    rw [show ([(ip, (⟨k + 1, reset⟩ : Counter))], true).1 = [(ip, (⟨k + 1, reset⟩ : Counter))] from rfl]
    rw [ih (k + 1) hts' hk']
    have hcount : k + 1 + ts.length = k + (ts.length + 1) := by omega
    simp [List.replicate_succ, hcount]

/-- C2 (amended): for a fixed fresh client identity, the 31st request
arriving within the 60-second window opened by the 1st is rejected; but
an existing counter is never "reinitialized on expiry" — a request
arriving after the reset time yet within 60 seconds of it still sees the
old full counter and is rejected; only a request arriving more than 60
seconds after the reset time finds the stale entry evicted by the sweep
and is admitted with a fresh counter of count 1. -/
theorem C2_amended_window (ip : String) (t0 tlast tnext : ℚ) (mids : List ℚ)
    (hm : mids.length = 29) (hin : ∀ t ∈ mids, t ≤ t0 + 60)
    (hl : tlast ≤ t0 + 60) (hnext : t0 + 120 < tnext) :
    runRequests [] ip (t0 :: (mids ++ [tlast, tnext])) =
      ([(ip, ⟨1, tnext + 60⟩)], true :: (List.replicate 29 true ++ [false, true])) := by
  have h1 : rate_limit [] ip t0 = ([(ip, ⟨1, t0 + 60⟩)], true) := rate_limit_fresh ip t0
  have h2 : runRequests [(ip, ⟨1, t0 + 60⟩)] ip mids =
      ([(ip, ⟨30, t0 + 60⟩)], List.replicate 29 true) := by
    have h := runRequests_window ip (t0 + 60) 1 mids hin (by rw [hm])
    rw [hm] at h
    simpa using h
  have h3 : rate_limit [(ip, ⟨30, t0 + 60⟩)] ip tlast = ([(ip, ⟨30, t0 + 60⟩)], false) :=
    rate_limit_found_reject ip 30 (t0 + 60) tlast (by show tlast - (t0 + 60) ≤ 60; linarith)
      (le_refl 30)
  have h4 : rate_limit [(ip, ⟨30, t0 + 60⟩)] ip tnext = ([(ip, ⟨1, tnext + 60⟩)], true) :=
    rate_limit_evict ip ⟨30, t0 + 60⟩ tnext (by show tnext - (t0 + 60) > 60; linarith)
  simp [runRequests_cons, runRequests_append, runRequests_nil, h1, h2, h3, h4]

/-- C2 witness: 31 requests at time 0 (the last rejected) followed by an
admitted request at time 121, which is more than 60 seconds past the
reset time 60. -/
theorem C2_witness :
    runRequests [] "a" ((0 : ℚ) :: (List.replicate 29 (0 : ℚ) ++ [0, 121])) =
      ([("a", ⟨1, (121 : ℚ) + 60⟩)], true :: (List.replicate 29 true ++ [false, true])) :=
  C2_amended_window "a" 0 0 121 (List.replicate 29 0)
    (by simp)
    (by
      intro t ht
      rw [List.eq_of_mem_replicate ht]
      norm_num)
    (by norm_num)
    (by norm_num)

set_option maxRecDepth 8000 in
/-- C2 counterexample: after 31 requests at time 0 (the 31st already
rejected), the 60-second window has fully elapsed at time 61 (the
counter's reset time is 60), yet the request at time 61 is also rejected
with the counter unchanged at count 30 — the stale entry survives the
sweep for a further 60 seconds and is never reinitialized, contradicting
the claim that the 1st request after the window has fully elapsed is
admitted with count reset to 1. -/
theorem C2_counterexample :
    runRequests [] "a" (List.replicate 31 (0 : ℚ) ++ [61]) =
      ([("a", ⟨30, 60⟩)], List.replicate 30 true ++ [false, false]) := by
  norm_num [runRequests, rate_limit, sweep, findVal, updateVal, List.find?, List.filter,
    List.replicate]

/-! ### C3: the order validator's acceptance condition -/

/-- The per-item bounds of OrderItem validation. -/
def itemOk (it : OrderItem) : Prop :=
  1 ≤ it.qty ∧ it.qty ≤ 100 ∧ 0 ≤ it.price ∧ it.price ≤ 1000

/-- The price normalization a validated item undergoes (`round(v, 2)`). -/
def normItem (it : OrderItem) : OrderItem :=
  { it with price := round2 it.price }

/-- Modelled from the spec (C3): the claim's stated acceptance condition
of the Order Validator — item bounds, item count, declared-total bounds,
and the declared total within 0.01 of the sum over items of quantity
times rounded unit price. -/
def specValid (raw : RawOrder) : Prop :=
  (∀ it ∈ raw.items, itemOk it) ∧
  1 ≤ raw.items.length ∧ raw.items.length ≤ 50 ∧
  0 ≤ raw.total ∧ raw.total ≤ 10000 ∧
  |raw.total - (raw.items.map (fun it => (it.qty : ℚ) * round2 it.price)).sum| ≤ 1 / 100

/-- The note condition the code enforces (compare C8): at most 500
characters before trimming. -/
def noteOk : Option String → Prop
  | none => True
  | some s => s.length ≤ 500

theorem validateItem_ok (it : OrderItem) (hit : itemOk it) :
    validateItem it = .ok (normItem it) := by
  obtain ⟨h1, h2, h3, h4⟩ := hit
  unfold validateItem
  rw [if_neg (not_not_intro ⟨h1, h2⟩), if_neg (not_lt.mpr h3),
    if_neg (by rintro (h | h); exacts [absurd h (not_lt.mpr h3), absurd h (not_lt.mpr h4)])]
  rfl

theorem validateItem_ok_inv (it j : OrderItem) (h : validateItem it = .ok j) :
    itemOk it ∧ j = normItem it := by
  unfold validateItem at h
  by_cases h1 : ¬ (1 ≤ it.qty ∧ it.qty ≤ 100)
  · rw [if_pos h1] at h; cases h
  · rw [if_neg h1] at h
    by_cases h2 : it.price < 0
    · rw [if_pos h2] at h; cases h
    · rw [if_neg h2] at h
      by_cases h3 : it.price < 0 ∨ it.price > 1000
      · rw [if_pos h3] at h; cases h
      · rw [if_neg h3] at h
        push_neg at h1 h3
        injection h with hj
        exact ⟨⟨h1.1, h1.2, not_lt.mp h2, h3.2⟩, hj.symm⟩

theorem validateItems_ok (l : List OrderItem) (h : ∀ it ∈ l, itemOk it) :
    validateItems l = .ok (l.map normItem) := by
  induction l with
  | nil => rfl
  | cons it rest ih =>
    unfold validateItems
    rw [validateItem_ok it (h it (List.mem_cons_self it rest)),
      ih (fun x hx => h x (List.mem_cons_of_mem it hx))]
    simp

theorem validateItems_ok_inv (l vs : List OrderItem) (h : validateItems l = .ok vs) :
    (∀ it ∈ l, itemOk it) ∧ vs = l.map normItem := by
  induction l generalizing vs with
  | nil =>
    unfold validateItems at h
    injection h with h
    refine ⟨fun it hit => absurd hit (List.not_mem_nil it), h.symm⟩
  | cons it rest ih =>
    unfold validateItems at h
    cases hv : validateItem it with
    | error e => rw [hv] at h; cases h
    | ok v =>
      cases hvs : validateItems rest with
      | error e => rw [hv, hvs] at h; cases h
      | ok vs2 =>
        rw [hv, hvs] at h
        injection h with h
        obtain ⟨hio, hveq⟩ := validateItem_ok_inv it v hv
        obtain ⟨hall, hvs2eq⟩ := ih vs2 hvs
        constructor
        · intro x hx
          rcases List.mem_cons.mp hx with hx | hx
          · exact hx ▸ hio
          · exact hall x hx
        · rw [← h, hveq, hvs2eq]
          simp

theorem validate_notes_ok_iff (v : Option String) :
    (∃ n, validate_notes v = .ok n) ↔ noteOk v := by
  cases v with
  | none => simp [validate_notes, noteOk]
  | some s =>
    unfold validate_notes noteOk
    by_cases hs : s = ""
    · subst hs
      simp
    · by_cases hlen : s.length > 500
      · simp [hs, hlen]
      · simp [hs, hlen]
        omega

theorem calculated_total_norm (l : List OrderItem) :
    calculated_total (l.map normItem) =
      (l.map (fun it => (it.qty : ℚ) * round2 it.price)).sum := by
  unfold calculated_total
  rw [List.map_map]
  refine congrArg List.sum (List.map_congr_left ?_)
  intro it hit
  simp [normItem, Function.comp, mul_comm]

/-- C3 (amended): the order-validation path (pydantic model construction
plus the endpoint's total cross-check) succeeds iff every item's
quantity is an integer in [1,100] and unit price in [0,1000], the item
count is in [1,50], the declared total in [0,10000], the declared total
is within 0.01 of the sum over items of quantity times rounded unit
price — and additionally any supplied note is at most 500 characters
before trimming, a conjunct the claim as frozen omits. -/
theorem C3_amended_validate_iff (raw : RawOrder) :
    (∃ o, validateOrder raw = .ok o) ↔ (specValid raw ∧ noteOk raw.notes) := by
  constructor
  · rintro ⟨o, ho⟩
    unfold validateOrder mkOrderCreate at ho
    cases hvi : validateItems raw.items with
    | error e => rw [hvi] at ho; cases ho
    | ok vs =>
      rw [hvi] at ho
      dsimp only at ho
      obtain ⟨hall, hvseq⟩ := validateItems_ok_inv raw.items vs hvi
      subst hvseq
      by_cases hlen0 : (raw.items.map normItem).length = 0
      · rw [if_pos hlen0] at ho; cases ho
      · rw [if_neg hlen0] at ho
        by_cases hlen50 : (raw.items.map normItem).length > 50
        · rw [if_pos hlen50] at ho; cases ho
        · rw [if_neg hlen50] at ho
          by_cases htot : ¬ (0 ≤ raw.total ∧ raw.total ≤ 10000)
          · rw [if_pos htot] at ho; cases ho
          · rw [if_neg htot] at ho
            cases hn : validate_notes raw.notes with
            | error e => rw [hn] at ho; cases ho
            | ok n =>
              rw [hn] at ho
              dsimp only at ho
              by_cases hmis :
                  |calculated_total (raw.items.map normItem) - raw.total| > 1 / 100
              · rw [if_pos hmis] at ho; cases ho
              · push_neg at htot
                rw [List.length_map] at hlen0 hlen50
                refine ⟨⟨hall, by omega, by omega, htot.1, htot.2, ?_⟩,
                  (validate_notes_ok_iff raw.notes).mp ⟨n, hn⟩⟩
                rw [not_lt, calculated_total_norm, abs_sub_comm] at hmis
                exact hmis
  · rintro ⟨⟨hall, h1, h50, ht0, ht1, hdiff⟩, hnote⟩
    obtain ⟨n, hn⟩ := (validate_notes_ok_iff raw.notes).mpr hnote
    refine ⟨⟨raw.items.map normItem, raw.total, raw.init_data, n⟩, ?_⟩
    unfold validateOrder mkOrderCreate
    rw [validateItems_ok raw.items hall]
    dsimp only
    rw [if_neg (by rw [List.length_map]; omega),
      if_neg (by rw [List.length_map]; omega),
      if_neg (not_not_intro ⟨ht0, ht1⟩), hn]
    dsimp only
    rw [if_neg (by rw [not_lt, calculated_total_norm, abs_sub_comm]; exact hdiff)]

set_option maxRecDepth 8000 in
/-- C3 counterexample: a submission whose items, item count, totals and
recomputed total satisfy every condition the claim lists, yet whose
501-character note makes the code's validation fail — the validator also
checks the optional note, which the claim's if-and-only-if omits. -/
theorem C3_counterexample :
    specValid ⟨[⟨1, "x", 1, 1⟩], 1, "", some (String.mk (List.replicate 501 'a'))⟩ ∧
    validateOrder ⟨[⟨1, "x", 1, 1⟩], 1, "", some (String.mk (List.replicate 501 'a'))⟩ =
      .error "Notes too long (max 500 chars)" := by
  have hr : round2 1 = 1 := by norm_num [round2, round_eq]
  constructor
  · refine ⟨?_, by norm_num, by norm_num, by norm_num, by norm_num, ?_⟩
    · intro it hit
      rw [List.mem_singleton] at hit
      subst hit
      refine ⟨by norm_num, by norm_num, by norm_num, by norm_num⟩
    · show |(1 : ℚ) - [(1 : ℚ) * round2 1].sum| ≤ 1 / 100
      rw [hr]
      norm_num
  · have hlen : (String.mk (List.replicate 501 'a')).length = 501 := by
      simp [String.length]
    have hne : String.mk (List.replicate 501 'a') ≠ "" := by
      intro hcontra
      have : (String.mk (List.replicate 501 'a')).length = ("" : String).length := by
        rw [hcontra]
      simp [String.length] at this
    have hnotes : validate_notes (some (String.mk (List.replicate 501 'a'))) =
        .error "Notes too long (max 500 chars)" := by
      unfold validate_notes
      dsimp only
      rw [if_pos ⟨hne, by rw [hlen]; norm_num⟩]
    have hmk : mkOrderCreate
        ⟨[⟨1, "x", 1, 1⟩], 1, "", some (String.mk (List.replicate 501 'a'))⟩ =
        .error "Notes too long (max 500 chars)" := by
      unfold mkOrderCreate
      rw [validateItems_ok [⟨1, "x", 1, 1⟩]
        (by
          intro it hit
          rw [List.mem_singleton] at hit
          subst hit
          exact ⟨by norm_num, by norm_num, by norm_num, by norm_num⟩)]
      dsimp only
      rw [if_neg (by simp), if_neg (by simp),
        if_neg (not_not_intro ⟨by norm_num, by norm_num⟩), hnotes]
    unfold validateOrder
    rw [hmk]

/-! ### C8: note handling -/

/-- C8 (amended): a supplied note is rejected iff it exceeds 500
characters before any trimming; an accepted truthy (non-empty) note is
returned with surrounding whitespace stripped — so a whitespace-only
note becomes the empty string, not `None` — and a missing or
empty-string note is returned as absent. -/
theorem C8_amended_note_length (s : String) :
    (validate_notes (some s) = .error "Notes too long (max 500 chars)" ↔ 500 < s.length) ∧
    (s.length ≤ 500 →
      validate_notes (some s) = .ok (if s = "" then none else some (pyStrip s))) ∧
    validate_notes none = .ok none := by
  refine ⟨?_, ?_, rfl⟩
  · unfold validate_notes
    dsimp only
    by_cases hs : s = ""
    · subst hs
      simp
    · by_cases hlen : s.length > 500
      · simp [hs, hlen]
      · simp [hs, hlen]
  · intro hle
    unfold validate_notes
    dsimp only
    rw [if_neg (fun hcon => absurd hcon.2 (by omega))]

/-- C8 witness: a 5-character note is accepted and returned trimmed, and
a whitespace-only note is accepted as the empty string rather than
absent. -/
theorem C8_witness :
    validate_notes (some "  a  ") = .ok (some "a") ∧
    validate_notes (some " ") = .ok (some "") := by
  constructor
  · have h := (C8_amended_note_length "  a  ").2.1 (by decide)
    rw [h]
    rfl
  · have h := (C8_amended_note_length " ").2.1 (by decide)
    rw [h]
    rfl

set_option maxRecDepth 40000 in
/-- C8 counterexample: a 501-character note whose trimmed length is 499
— at most 500 after trimming, so the claim says it must be accepted — is
rejected by the code, which compares the length before stripping. -/
theorem C8_counterexample :
    (pyStrip (String.mk (List.replicate 499 'a' ++ [' ', ' ']))).length = 499 ∧
    validate_notes (some (String.mk (List.replicate 499 'a' ++ [' ', ' ']))) =
      .error "Notes too long (max 500 chars)" :=
  ⟨rfl, rfl⟩

/-! ### C1: stage order and terminality of the admission pipeline -/

theorem handleRequest_rate_false (ctx : Ctx) (st st1 : RequestCounts) (client_ip : String)
    (raw : RawOrder) (bot_token : String) (now : ℚ)
    (h : rate_limit st client_ip now = (st1, false)) :
    handleRequest ctx st client_ip raw bot_token now = (st1, .rateLimited) := by
  unfold handleRequest
  rw [h]

theorem handleRequest_rate_true (ctx : Ctx) (st st1 : RequestCounts) (client_ip : String)
    (raw : RawOrder) (bot_token : String) (now : ℚ)
    (h : rate_limit st client_ip now = (st1, true)) :
    handleRequest ctx st client_ip raw bot_token now =
      (match mkOrderCreate raw with
       | .error e => (st1, .badRequest e)
       | .ok o => (st1, create_order ctx o bot_token (Rat.floor now))) := by
  unfold handleRequest
  rw [h]

/-- C1 (amended): the deployed stack runs the Rate Admission Gate first —
a rate rejection is terminal and its outcome independent of the payload,
the verifier context and the secret; when admitted, FastAPI's body
validation (the Order Validator's structural checks: item bounds, item
count, total bounds, note length) runs BEFORE the Canonicalizer +
Signature Verifier, and its failure is terminal with an outcome
independent of the verifier context and the secret; only then does the
endpoint run signature verification, whose failure is terminal with the
unauthorized outcome; the Order Validator's total-consistency
cross-check runs last.  (The frozen claim's order — verifier before all
order validation — is refuted by `C1_counterexample`.) -/
theorem C1_amended_stage_order (ctx ctx' : Ctx) (st : RequestCounts) (client_ip : String)
    (raw raw' : RawOrder) (bot_token bot_token' : String) (now : ℚ) :
    ((rate_limit st client_ip now).2 = false →
      handleRequest ctx st client_ip raw bot_token now =
        ((rate_limit st client_ip now).1, .rateLimited) ∧
      handleRequest ctx st client_ip raw bot_token now =
        handleRequest ctx' st client_ip raw' bot_token' now) ∧
    (∀ e, (rate_limit st client_ip now).2 = true → mkOrderCreate raw = .error e →
      handleRequest ctx st client_ip raw bot_token now =
        ((rate_limit st client_ip now).1, .badRequest e) ∧
      handleRequest ctx st client_ip raw bot_token now =
        handleRequest ctx' st client_ip raw bot_token' now) ∧
    (∀ o, (rate_limit st client_ip now).2 = true → mkOrderCreate raw = .ok o →
      validateFields ctx (splitAmp o.init_data) bot_token (Rat.floor now) = none →
      handleRequest ctx st client_ip raw bot_token now =
        ((rate_limit st client_ip now).1, .unauthorized)) ∧
    (∀ o u, (rate_limit st client_ip now).2 = true → mkOrderCreate raw = .ok o →
      validateFields ctx (splitAmp o.init_data) bot_token (Rat.floor now) = some u →
      handleRequest ctx st client_ip raw bot_token now =
        ((rate_limit st client_ip now).1,
          if |calculated_total o.items - o.total| > 1 / 100 then
            .badRequest "Total amount mismatch"
          else .accepted u o.total)) := by
  rcases hre : rate_limit st client_ip now with ⟨st1, b⟩
  refine ⟨?_, ?_, ?_, ?_⟩
  · intro hb
    have hbf : b = false := hb
    subst hbf
    exact ⟨handleRequest_rate_false ctx st st1 client_ip raw bot_token now hre,
      (handleRequest_rate_false ctx st st1 client_ip raw bot_token now hre).trans
        (handleRequest_rate_false ctx' st st1 client_ip raw' bot_token' now hre).symm⟩
  · intro e hb hmk
    have hbt : b = true := hb
    subst hbt
    constructor
    · rw [handleRequest_rate_true ctx st st1 client_ip raw bot_token now hre, hmk]
    · rw [handleRequest_rate_true ctx st st1 client_ip raw bot_token now hre,
        handleRequest_rate_true ctx' st st1 client_ip raw bot_token' now hre, hmk]
  · intro o hb hmk hv
    have hbt : b = true := hb
    subst hbt
    rw [handleRequest_rate_true ctx st st1 client_ip raw bot_token now hre, hmk]
    dsimp only
    unfold create_order
    rw [hv]
  · intro o u hb hmk hv
    have hbt : b = true := hb
    subst hbt
    rw [handleRequest_rate_true ctx st st1 client_ip raw bot_token now hre, hmk]
    dsimp only
    unfold create_order
    rw [hv]

/-- C1 witness: one concrete request per stage decision — a full counter
is rate limited whatever the payload; an invalid quantity yields the
validation outcome; a payload without a signature yields the
unauthorized outcome; a well-formed request is accepted. -/
theorem C1_witness :
    handleRequest ctx0 [("a", ⟨30, 60⟩)] "a" ⟨[⟨1, "x", 1, 1⟩], 1, "hash=h", none⟩ "t" 0 =
      ([("a", ⟨30, 60⟩)], .rateLimited) ∧
    handleRequest ctx0 [] "a" ⟨[⟨1, "x", 0, 1⟩], 1, "hash=h", none⟩ "t" 0 =
      ([("a", ⟨1, 60⟩)], .badRequest "qty out of range") ∧
    handleRequest ctx0 [] "a" ⟨[⟨1, "x", 1, 1⟩], 1, "", none⟩ "t" 0 =
      ([("a", ⟨1, 60⟩)], .unauthorized) ∧
    handleRequest ctxUser [] "a" ⟨[⟨1, "x", 1, 1⟩], 1, "hash=h", none⟩ "t" 0 =
      ([("a", ⟨1, 60⟩)], .accepted user0 1) := by
  have hre1 : rate_limit [("a", (⟨30, 60⟩ : Counter))] "a" 0 = ([("a", ⟨30, 60⟩)], false) :=
    rate_limit_found_reject "a" 30 60 0 (by norm_num) (le_refl 30)
  have hre2 : rate_limit [] "a" (0 : ℚ) = ([("a", ⟨1, 60⟩)], true) := by
    have h := rate_limit_fresh "a" (0 : ℚ)
    norm_num at h
    exact h
  have hfl : Rat.floor (0 : ℚ) = 0 := by norm_num [Rat.floor]
  have hr1 : round2 1 = 1 := by norm_num [round2, round_eq]
  have hmkbad : mkOrderCreate ⟨[⟨1, "x", 0, 1⟩], 1, "hash=h", none⟩ =
      .error "qty out of range" := by
    norm_num [mkOrderCreate, validateItems, validateItem]
  have hmkok : ∀ init : String, mkOrderCreate ⟨[⟨1, "x", 1, 1⟩], 1, init, none⟩ =
      .ok ⟨[⟨1, "x", 1, 1⟩], 1, init, none⟩ := by
    intro init
    unfold mkOrderCreate
    rw [validateItems_ok [⟨1, "x", 1, 1⟩]
      (by
        intro it hit
        rw [List.mem_singleton] at hit
        subst hit
        exact ⟨by norm_num, by norm_num, by norm_num, by norm_num⟩)]
    dsimp only
    rw [if_neg (by simp), if_neg (by simp),
      if_neg (not_not_intro ⟨by norm_num, by norm_num⟩)]
    dsimp only [validate_notes]
    simp [normItem, hr1]
  have hvnone : validateFields ctx0 (splitAmp "") "t" (Rat.floor (0 : ℚ)) = none := by
    rw [hfl]
    rfl
  have hvsome : validateFields ctxUser (splitAmp "hash=h") "t" (Rat.floor (0 : ℚ)) =
      some user0 := by
    rw [hfl]
    rfl
  refine ⟨?_, ?_, ?_, ?_⟩
  · have h := ((C1_amended_stage_order ctx0 ctx0 [("a", ⟨30, 60⟩)] "a"
      ⟨[⟨1, "x", 1, 1⟩], 1, "hash=h", none⟩ ⟨[⟨1, "x", 1, 1⟩], 1, "hash=h", none⟩
      "t" "t" 0).1 (by rw [hre1])).1
    rw [h, hre1]
  · have h := (((C1_amended_stage_order ctx0 ctx0 [] "a"
      ⟨[⟨1, "x", 0, 1⟩], 1, "hash=h", none⟩ ⟨[⟨1, "x", 0, 1⟩], 1, "hash=h", none⟩
      "t" "t" 0).2.1 "qty out of range" (by rw [hre2]) hmkbad)).1
    rw [h, hre2]
  · have h := ((C1_amended_stage_order ctx0 ctx0 [] "a"
      ⟨[⟨1, "x", 1, 1⟩], 1, "", none⟩ ⟨[⟨1, "x", 1, 1⟩], 1, "", none⟩
      "t" "t" 0).2.2.1 ⟨[⟨1, "x", 1, 1⟩], 1, "", none⟩ (by rw [hre2]) (hmkok "")
      hvnone)
    rw [h, hre2]
  · have h := ((C1_amended_stage_order ctxUser ctxUser [] "a"
      ⟨[⟨1, "x", 1, 1⟩], 1, "hash=h", none⟩ ⟨[⟨1, "x", 1, 1⟩], 1, "hash=h", none⟩
      "t" "t" 0).2.2.2 ⟨[⟨1, "x", 1, 1⟩], 1, "hash=h", none⟩ user0 (by rw [hre2])
      (hmkok "hash=h") hvsome)
    rw [h, hre2, if_neg (by norm_num [calculated_total])]

/-- C1 counterexample: a request whose order payload is structurally
invalid (quantity 0) and whose signed payload the verifier rejects (no
`hash` field, first conjunct).  Under the claimed stage order the
Canonicalizer+Signature Verifier precedes the Order Validator and its
failure is terminal, so the outcome would have to be the unauthorized
one; the code returns the Order Validator's bad-request outcome instead,
because FastAPI validates the body before the endpoint ever invokes the
verifier. -/
theorem C1_counterexample :
    validateFields ctx0 (splitAmp "") "t" 0 = none ∧
    handleRequest ctx0 [] "a" ⟨[⟨1, "x", 0, 1⟩], 1, "", none⟩ "t" 0 =
      ([("a", ⟨1, 60⟩)], .badRequest "qty out of range") := by
  constructor
  · rfl
  · have hre2 : rate_limit [] "a" (0 : ℚ) = ([("a", ⟨1, 60⟩)], true) := by
      have h := rate_limit_fresh "a" (0 : ℚ)
      norm_num at h
      exact h
    have hmkbad : mkOrderCreate ⟨[⟨1, "x", 0, 1⟩], 1, "", none⟩ =
        .error "qty out of range" := by
      norm_num [mkOrderCreate, validateItems, validateItem]
    rw [handleRequest_rate_true ctx0 [] [("a", ⟨1, 60⟩)] "a"
      ⟨[⟨1, "x", 0, 1⟩], 1, "", none⟩ "t" 0 hre2, hmkbad]

end Bakery
